import Mathlib

/-!
Shallow embedding of the egihash core (src/egihash.cpp, src/egihash.h).

Conventions of the embedding:
* A 32-bit word is a `Nat` below 2^32 holding the twos-complement bit
  pattern of the C++ `int32_t` / `uint32_t` value.  Bitwise operations on
  patterns coincide with the C++ ones; where the source converts an
  `int32_t` to a 64-bit unsigned value (sign extension), the conversion is
  modelled explicitly by `sextVal`.
* A byte string (`std::string` used as binary data, file contents) is a
  `List Nat` of values below 256.
* A deserialized hash (`std::vector<int32_t>`) is a `List Nat` of words.
* The Keccak primitives (`sha3_256`/`sha3_512` from keccak-tiny) are out of
  scope per the spec and appear as function parameters
  `h256b h512b : List Nat → List Nat` from byte strings to byte strings.
* The host is little-endian (the source reinterprets integer memory when
  writing files and results; comments mark every such place).
* `size_t`/`uint64_t` arithmetic is modelled in `Nat` with explicit
  reductions mod 2^64 where the source can wrap.
-/

namespace egihash

/-- The value 2^32, the FNV modulus and the number of `uint32_t` values. -/
def U32 : Nat := 4294967296

/-- The value 2^64, the number of `size_t` / `uint64_t` values. -/
def U64 : Nat := 18446744073709551616

/-- Wrapping subtraction on 64-bit unsigned values (`a - b` in C++ for
`a < 2^64`, `b ≤ 2^64`). -/
def sub64 (a b : Nat) : Nat := (a + (U64 - b)) % U64

/-- Models `fnv` from the source: `((v1 * FNV_PRIME) ^ v2) % FNV_MODULUS` with
`FNV_PRIME = 0x01000193 = 16777619` and 32-bit unsigned arithmetic. -/
def fnv (v1 v2 : Nat) : Nat := (((v1 * 16777619) % U32) ^^^ v2) % U32

/-- Sign extension of an `int32_t` bit pattern to a `uint64_t` value, as
performed by the usual arithmetic conversions when the source mixes
`int32_t` with `size_t`. -/
def sextVal (p : Nat) : Nat := if p < 2147483648 then p else p + (U64 - U32)

/-- Models `decode_int` from the source: reads four bytes BIG-endian,
`(b0 << 24) | (b1 << 16) | (b2 << 8) | b3` (pattern of the `int32_t`). -/
def decode_int (bs : List Nat) : Nat :=
  ((bs.getD 0 0) <<< 24) ||| ((bs.getD 1 0) <<< 16) ||| ((bs.getD 2 0) <<< 8) ||| bs.getD 3 0

/-- Models `sha3_base::deserialize`: split a byte string into words of four bytes,
each decoded by `decode_int`. -/
def deserializeBytes : List Nat → List Nat
  | b0 :: b1 :: b2 :: b3 :: rest => decode_int [b0, b1, b2, b3] :: deserializeBytes rest
  | _ => []

/-- Concatenation of a list of byte strings. -/
def concatAll : List (List Nat) → List Nat
  | [] => []
  | a :: r => a ++ concatAll r

/-- The four bytes of a word, most significant first (the in-order hex
digits printed by `encode_int`). -/
def be4 (w : Nat) : List Nat :=
  [w / 16777216 % 256, w / 65536 % 256, w / 256 % 256, w % 256]

/-- Models `encode_int` from the source: the empty string for 0, otherwise the
minimal big-endian byte string of the (unsigned reinterpretation of the)
value, via hex formatting. -/
def encode_int (w : Nat) : List Nat := (be4 w).dropWhile (fun b => b == 0)

/-- Models `zpad(encode_int w, 4)`: `encode_int` padded on the RIGHT with zero
bytes up to four bytes. -/
def serializeWord (w : Nat) : List Nat :=
  encode_int w ++ List.replicate (4 - (encode_int w).length) 0

/-- Models `sha3_base::serialize`: concatenation of `zpad(encode_int(i), 4)` over
the words. -/
def serializeHashWords (ws : List Nat) : List Nat := concatAll (ws.map serializeWord)

/-- Models `hash_words` on a byte string: hash, then deserialize. -/
def hashBytes (h : List Nat → List Nat) (bytes : List Nat) : List Nat :=
  deserializeBytes (h bytes)

/-- Models `hash_words` on a deserialized hash: serialize, hash, deserialize. -/
def hashWords (h : List Nat → List Nat) (ws : List Nat) : List Nat :=
  deserializeBytes (h (serializeHashWords ws))

/-- The four bytes of a word in host (little-endian) memory order, as
`memcpy` and the file writer observe them. -/
def le4 (w : Nat) : List Nat :=
  [w % 256, w / 256 % 256, w / 65536 % 256, w / 16777216 % 256]

/-- The eight bytes of a `uint64_t` in host (little-endian) memory order. -/
def le8 (x : Nat) : List Nat :=
  [x % 256, x / 256 % 256, x / 65536 % 256, x / 16777216 % 256,
   x / 4294967296 % 256, x / 1099511627776 % 256,
   x / 281474976710656 % 256, x / 72057594037927936 % 256]

/-- Models `progress_callback_phase` from the header. -/
inductive Phase where
  | cacheSeeding
  | cacheGeneration
  | cacheSaving
  | cacheLoading
  | dagGeneration
  | dagSaving
  | dagLoading
  deriving DecidableEq, Repr

/-- The single `hash_exception` type of the source, one constructor per
distinct message string thrown. -/
inductive HashError where
  /-- thrown message: Unable to compute hash -/
  | unableToComputeHash
  /-- thrown message: Cache creation cancelled. -/
  | cacheCreationCancelled
  /-- thrown message: Cache loading cancelled. -/
  | cacheLoadingCancelled
  /-- thrown message: DAG creation cancelled. -/
  | dagCreationCancelled
  /-- thrown message: DAG save cancelled. -/
  | dagSaveCancelled
  /-- thrown message: DAG loading cancelled. -/
  | dagLoadingCancelled
  /-- thrown message: DAG is corrupt -/
  | dagCorrupt
  /-- thrown message: Not a DAG file -/
  | notADagFile
  /-- thrown message: DAG version is invalid -/
  | dagVersionInvalid
  /-- thrown message: DAG cache is corrupt -/
  | dagCacheCorrupt
  /-- thrown message: Could not get DAG -/
  | couldNotGetDag
  deriving DecidableEq, Repr

/-- Models `dag::impl_t` data relevant to the registry: epoch, size in bytes,
cache items and DAG items. -/
structure DagHandle where
  epoch : Nat
  sizeBytes : Nat
  cacheData : List (List Nat)
  dagData : List (List Nat)
  deriving DecidableEq, Repr

/-- Models `result_t`: 32 bytes of result value and 32 bytes of mix hash. -/
structure HashimotoResult where
  value : List Nat
  mixhash : List Nat
  deriving DecidableEq, Repr

/-- The contents of the `epoch0_seedhash` char array (32 NUL characters,
the terminating NUL of the literal aside). -/
def epoch0_seedhash : List Nat := List.replicate 32 0

/-- Models `std::string(const char *)` semantics: take the characters before the
first NUL.  Applied to `epoch0_seedhash` this yields the EMPTY string. -/
def cstringOf (chars : List Nat) : List Nat := chars.takeWhile (fun b => b != 0)

/-- Models `get_seedhash`: start from `std::string(epoch0_seedhash)` and apply
`s := sha3_256_t::serialize(sha3_256(s))` once per elapsed epoch. -/
def get_seedhash (h256b : List Nat → List Nat) (block_number : Nat) : List Nat :=
  (List.range (block_number / 30000)).foldl
    (fun s _ => serializeHashWords (deserializeBytes (h256b s)))
    (cstringOf epoch0_seedhash)

/-- The trial-division loop of `is_prime`: divisors `i = 2, 3, ...` while
`i <= sqrt(x)` (equivalently `i * i ≤ x`; exact for the magnitudes the
source feeds to the double-precision `std::sqrt`).  `fuel` bounds the
recursion and is always sufficient at the call site. -/
def trialLoop : Nat → Nat → Nat → Bool
  | 0, _, _ => true
  | fuel + 1, i, x =>
    if i * i ≤ x then
      (if x % i == 0 then false else trialLoop fuel (i + 1) x)
    else true

/-- Models `is_prime` from the source (note: it returns `true` on 0 and 1). -/
def isPrimeCode (x : Nat) : Bool := trialLoop x 2 x

/-- The size-search loop shared by `get_cache_size` and `get_full_size`:
while the quotient by `d` is not `is_prime`, subtract `2 * d` (with
`size_t` wrap-around).  `fuel` bounds the recursion and is always
sufficient at the call sites. -/
def sizeLoop (d : Nat) : Nat → Nat → Nat
  | 0, x => x
  | fuel + 1, x => if isPrimeCode (x / d) then x else sizeLoop d fuel (sub64 x (2 * d))

/-- The initial value of `cache_size`:
`(CACHE_BYTES_INIT + CACHE_BYTES_GROWTH * (block_number / EPOCH_LENGTH)) - HASH_BYTES`
in `size_t` arithmetic. -/
def cacheSizeInit (block_number : Nat) : Nat :=
  sub64 ((16777216 + 131072 * (block_number / 30000) % U64) % U64) 64

/-- Models `cache_t::impl_t::get_cache_size`. -/
def get_cache_size (block_number : Nat) : Nat :=
  sizeLoop 64 (cacheSizeInit block_number) (cacheSizeInit block_number)

/-- The initial value of `full_size`:
`(DATASET_BYTES_INIT + DATASET_BYTES_GROWTH * (block_number / EPOCH_LENGTH)) - MIX_BYTES`
in `uint64_t` arithmetic. -/
def fullSizeInit (block_number : Nat) : Nat :=
  sub64 ((1073741824 + 8388608 * (block_number / 30000) % U64) % U64) 128

/-- Models `dag::impl_t::get_full_size`. -/
def get_full_size (block_number : Nat) : Nat :=
  sizeLoop 128 (fullSizeInit block_number) (fullSizeInit block_number)

/-- One inner step of `mkcache` phase B at outer round index `i` and item
index `j`.  Faithful to the source: `u` is a REFERENCE to
`data[(j-1+n)%n]`, which is xor-ed IN PLACE with `data[v]`, and the
rehashed image is stored at index `i` (the outer ROUND index), not `j`. -/
def mkcacheInnerStep (h512b : List Nat → List Nat) (n i j : Nat)
    (data : List (List Nat)) : List (List Nat) :=
  let v := sextVal ((data.getD j []).getD 0 0) % n
  let uidx := (j + n - 1) % n
  let uNew := List.zipWith (fun a b => a ^^^ b) (data.getD uidx []) (data.getD v [])
  (data.set uidx uNew).set i (hashWords h512b uNew)

/-- The seeding loop of `mkcache` (phase A), for `i` in `1..n-1`:
`data.push_back(sha3_512(data.back()))`, then the progress callback with
`(i, n, cache_seeding)`; returning `false` throws the cancellation
exception. -/
def seedLoopGo (h512b : List Nat → List Nat) (n : Nat)
    (cb : Nat → Nat → Phase → Bool) :
    List Nat → List (List Nat) → Except HashError (List (List Nat))
  | [], data => Except.ok data
  | i :: rest, data =>
    let data2 := data ++ [hashWords h512b (data.getLastD [])]
    if i % 1 == 0 && !(cb i n Phase.cacheSeeding) then
      Except.error HashError.cacheCreationCancelled
    else seedLoopGo h512b n cb rest data2

/-- The inner loop of `mkcache` phase B at round `i`: the step above, then
the progress callback with `(progress_counter, n * CACHE_ROUNDS,
cache_generation)` where `progress_counter = i * n + j` (the source gates
the callback on `i % CALLBACK_FREQUENCY`, the round index). -/
def phaseBInner (h512b : List Nat → List Nat) (n : Nat)
    (cb : Nat → Nat → Phase → Bool) (i : Nat) :
    List Nat → List (List Nat) → Except HashError (List (List Nat))
  | [], data => Except.ok data
  | j :: rest, data =>
    let data2 := mkcacheInnerStep h512b n i j data
    if i % 1 == 0 && !(cb (i * n + j) (n * 3) Phase.cacheGeneration) then
      Except.error HashError.cacheCreationCancelled
    else phaseBInner h512b n cb i rest data2

/-- The outer loop of `mkcache` phase B over `CACHE_ROUNDS = 3` rounds. -/
def phaseBGo (h512b : List Nat → List Nat) (n : Nat)
    (cb : Nat → Nat → Phase → Bool) :
    List Nat → List (List Nat) → Except HashError (List (List Nat))
  | [], data => Except.ok data
  | i :: rest, data =>
    match phaseBInner h512b n cb i (List.range n) data with
    | Except.error e => Except.error e
    | Except.ok d2 => phaseBGo h512b n cb rest d2

/-- Models `cache_t::impl_t::mkcache` for `n = size / HASH_BYTES` items: phase A
seeds `cache[0] = sha3_512(seed)`, `cache[i] = sha3_512(cache[i-1])`;
phase B is the strengthening loop. -/
def mkcacheE (h512b : List Nat → List Nat) (n : Nat) (seedBytes : List Nat)
    (cb : Nat → Nat → Phase → Bool) : Except HashError (List (List Nat)) :=
  match seedLoopGo h512b n cb (List.range' 1 (n - 1)) [hashBytes h512b seedBytes] with
  | Except.error e => Except.error e
  | Except.ok data => phaseBGo h512b n cb (List.range 3) data

/-- One parent round of `calc_dataset_item`:
`cache_index = fnv(i ^ j, mix[j % r])`, then a 16-word element-wise FNV
combine of `mix` with `cache[cache_index % n]`. -/
def calcRound (cache : List (List Nat)) (n i : Nat) (mix : List Nat) (j : Nat) : List Nat :=
  let cache_index := fnv ((i ^^^ j) % U32) (mix.getD (j % 16) 0)
  List.zipWith fnv mix (cache.getD (cache_index % n) [])

/-- Models `dag::impl_t::calc_dataset_item`. -/
def calc_dataset_item (h512b : List Nat → List Nat) (cache : List (List Nat))
    (i : Nat) : List Nat :=
  let n := cache.length
  let mix0 := cache.getD (i % n) []
  let mix1 := mix0.set 0 ((mix0.getD 0 0) ^^^ (i % U32))
  let mix2 := hashWords h512b mix1
  hashWords h512b ((List.range 256).foldl (fun mix j => calcRound cache n i mix j) mix2)

/-- The materialized DAG contents: item `i` is `calc_dataset_item(cache, i)`
for `i` in `0..n-1`. -/
def dagItems (h512b : List Nat → List Nat) (cache : List (List Nat)) (n : Nat) :
    List (List Nat) :=
  (List.range n).map (calc_dataset_item h512b cache)

/-- The generation loop of `dag::impl_t::generate`, with the progress
callback after every pushed item. -/
def genLoopGo (h512b : List Nat → List Nat) (cache : List (List Nat)) (n : Nat)
    (cb : Nat → Nat → Phase → Bool) :
    List Nat → List (List Nat) → Except HashError (List (List Nat))
  | [], data => Except.ok data
  | i :: rest, data =>
    let data2 := data ++ [calc_dataset_item h512b cache i]
    if i % 1 == 0 && !(cb i n Phase.dagGeneration) then
      Except.error HashError.dagCreationCancelled
    else genLoopGo h512b cache n cb rest data2

/-- Models `dag::impl_t::generate` over `n = size / HASH_BYTES` items. -/
def generateE (h512b : List Nat → List Nat) (cache : List (List Nat)) (n : Nat)
    (cb : Nat → Nat → Phase → Bool) : Except HashError (List (List Nat)) :=
  genLoopGo h512b cache n cb (List.range n) []

/-- The 40-element word vector `header_seed` of `hashimoto`: the 8 header
words followed by the 8 nonce BYTES pushed as individual `int32_t`
elements, taken from the nonce memory MOST significant byte first on a
little-endian host (`reinterpret_cast<uint8_t const *>(&nonce)[7 - i]`). -/
def headerSeedWords (header : List Nat) (nonce : Nat) : List Nat :=
  header ++ (List.range 8).map (fun i => nonce / 2 ^ (8 * (7 - i)) % 256)

/-- The intermediate seed `s = sha3_512(header_seed)` of `hashimoto`. -/
def hashimotoS (h512b : List Nat → List Nat) (header : List Nat) (nonce : Nat) :
    List Nat :=
  hashWords h512b (headerSeedWords header nonce)

/-- The probe index of one hashimoto access:
`p = fnv(i ^ s[0], mix[i % w]) % (n / mixhashes) * mixhashes` with
`w = 32`, `mixhashes = 2` (`i ^ s[0]` sign-extends `s[0]`; only the low 32
bits reach `fnv`). -/
def accessP (n : Nat) (s mix : List Nat) (i : Nat) : Nat :=
  fnv ((i % U32) ^^^ s.getD 0 0) (mix.getD (i % 32) 0) % (n / 2) * 2

/-- The ACCESSES loop of `hashimoto`, also collecting every index passed
to the lookup function: at access `i`, items `p` and `p + 1` are fetched
and FNV-combined element-wise into the 32-word `mix`. -/
def hashimotoLoopGo (n : Nat) (s : List Nat) (lookup : Nat → List Nat) :
    List Nat → List Nat × List Nat → List Nat × List Nat
  | [], st => st
  | i :: rest, (mix, idxs) =>
    let p := accessP n s mix i
    hashimotoLoopGo n s lookup rest
      (List.zipWith fnv mix (lookup p ++ lookup (p + 1)), idxs ++ [p, p + 1])

/-- The final 32-word mix after `ACCESSES = 64` accesses, starting from
`mix = s || s`. -/
def hashimotoMixFinal (n : Nat) (s : List Nat) (lookup : Nat → List Nat) : List Nat :=
  (hashimotoLoopGo n s lookup (List.range 64) (s ++ s, [])).1

/-- Every index `hashimoto` passes to its lookup function. -/
def hashimotoIndices (n : Nat) (s : List Nat) (lookup : Nat → List Nat) : List Nat :=
  (hashimotoLoopGo n s lookup (List.range 64) (s ++ s, [])).2

/-- The compressed mix: `cmix.push_back(fnv(fnv(fnv(mix[i], mix[i+1]),
mix[i+2]), mix[i+3]))` for `i = 0, 4, ...` below `mix.size()`. -/
def cmixOf (mix : List Nat) : List Nat :=
  (List.range ((mix.length + 3) / 4)).map (fun t =>
    fnv (fnv (fnv (mix.getD (4 * t) 0) (mix.getD (4 * t + 1) 0)) (mix.getD (4 * t + 2) 0))
      (mix.getD (4 * t + 3) 0))

/-- The `memcpy` of `min(32, v.size())` BYTES from the memory of a word vector
into a zero-initialized 32-byte field: `v.size()` counts ELEMENTS, so for
the 8-word vectors at hand only 8 bytes are copied (little-endian host
memory order) and 24 zero bytes remain. -/
def copyMin32 (ws : List Nat) : List Nat :=
  (concatAll (ws.map le4)).take (min 32 ws.length) ++
    List.replicate (32 - min 32 ws.length) 0

/-- Models `hashimoto` from the source.  Note the final digest is
`sha3_256(s)` - the serialized `s` alone, `cmix` is NOT part of the
hash input - and both output fields receive only `min(32, 8)` bytes. -/
def hashimoto (h256b h512b : List Nat → List Nat) (header : List Nat)
    (nonce full_size : Nat) (lookup : Nat → List Nat) : HashimotoResult :=
  let n := full_size / 64
  let s := hashimotoS h512b header nonce
  let cmix := cmixOf (hashimotoMixFinal n s lookup)
  let v := hashWords h256b s
  ⟨copyMin32 v, copyMin32 cmix⟩

/-- Models `hashimoto_light`: the lookup recomputes each DAG item from the cache. -/
def hashimoto_light (h256b h512b : List Nat → List Nat) (full_size : Nat)
    (cache : List (List Nat)) (header : List Nat) (nonce : Nat) : HashimotoResult :=
  hashimoto h256b h512b header nonce full_size
    (fun x => calc_dataset_item h512b cache x)

/-- Models `hashimoto_full`: the lookup reads the materialized DAG items. -/
def hashimoto_full (h256b h512b : List Nat → List Nat) (full_size : Nat)
    (dagData : List (List Nat)) (header : List Nat) (nonce : Nat) : HashimotoResult :=
  hashimoto h256b h512b header nonce full_size (fun x => dagData.getD x [])

/-- The 11 magic characters of `DAG_MAGIC_BYTES`. -/
def magicBytes : List Nat := [69, 71, 73, 72, 65, 83, 72, 95, 68, 65, 71]

/-- The 65 header bytes written by `dag::impl_t::save` (note the recorded
`cache_begin` is `DAG_FILE_HEADER_SIZE = 66`, one more than the 65 bytes
actually written). -/
def dagSaveHeaderBytes (epoch cacheBytes dagBytes : Nat) : List Nat :=
  magicBytes ++ [0] ++ le4 1 ++ le4 23 ++ le4 0 ++ le8 epoch ++
    le8 66 ++ le8 (66 + cacheBytes) ++ le8 (66 + cacheBytes) ++
    le8 (66 + cacheBytes + dagBytes) ++ [0]

/-- The item-writing loop of `dag::impl_t::save` (used once for the cache
items and once for the DAG items, with a running `count`): each word is
written in host (little-endian) memory order, then the progress callback
runs with `(count, max_count, dag_saving)`. -/
def saveLoopGo (cb : Nat → Nat → Phase → Bool) (maxCount : Nat) :
    List (List Nat) → Nat → List Nat → Except HashError (List Nat × Nat)
  | [], count, out => Except.ok (out, count)
  | item :: rest, count, out =>
    let out2 := out ++ concatAll (item.map le4)
    if (count + 1) % 1 == 0 && !(cb (count + 1) maxCount Phase.dagSaving) then
      Except.error HashError.dagSaveCancelled
    else saveLoopGo cb maxCount rest (count + 1) out2

/-- Models `dag::impl_t::save`: header, then cache items, then DAG items.  The
max_count of the source adds the cache size in BYTES to the DAG item count. -/
def saveE (cacheData dagData : List (List Nat)) (epoch cacheSizeBytes dagSizeBytes : Nat)
    (cb : Nat → Nat → Phase → Bool) : Except HashError (List Nat) :=
  let maxCount := cacheSizeBytes + dagData.length
  match saveLoopGo cb maxCount cacheData 0
      (dagSaveHeaderBytes epoch cacheSizeBytes dagSizeBytes) with
  | Except.error e => Except.error e
  | Except.ok (out, count) =>
    match saveLoopGo cb maxCount dagData count out with
    | Except.error e => Except.error e
    | Except.ok (out2, _) => Except.ok out2

/-- The item-reading loop of `cache_t::impl_t::load`.  The source iterates
`for (auto i : data)` BY VALUE: each iteration resizes and reads into a
COPY, so the stream advances by `HASH_BYTES = 64` bytes per item while
`data` itself keeps its `n` freshly-resized EMPTY items. -/
def cacheLoadGo (n : Nat) (cb : Nat → Nat → Phase → Bool) :
    List Nat → List Nat → Except HashError (List Nat)
  | [], stream => Except.ok stream
  | c :: rest, stream =>
    if (c + 1) % 1 == 0 && !(cb (c + 1) n Phase.cacheLoading) then
      Except.error HashError.cacheLoadingCancelled
    else cacheLoadGo n cb rest (stream.drop 64)

/-- Models `cache_t::impl_t::load` on an already-positioned stream: returns the
resulting cache data (all items empty, see `cacheLoadGo`) and the rest of
the stream. -/
def cacheLoadLoopE (stream : List Nat) (n : Nat) (cb : Nat → Nat → Phase → Bool) :
    Except HashError (List (List Nat) × List Nat) :=
  match cacheLoadGo n cb (List.range n) stream with
  | Except.error e => Except.error e
  | Except.ok rest => Except.ok (List.replicate n [], rest)

/-- The DAG item-reading loop of `dag::impl_t::load`, with the same
by-value bug as `cacheLoadGo`. -/
def dagLoadGo (n : Nat) (cb : Nat → Nat → Phase → Bool) :
    List Nat → List Nat → Except HashError (List Nat)
  | [], stream => Except.ok stream
  | c :: rest, stream =>
    if (c + 1) % 1 == 0 && !(cb (c + 1) n Phase.dagLoading) then
      Except.error HashError.dagLoadingCancelled
    else dagLoadGo n cb rest (stream.drop 64)

/-- The DAG item part of `dag::impl_t::load`: `n` empty items and the
advanced stream. -/
def dagLoadLoopE (stream : List Nat) (n : Nat) (cb : Nat → Nat → Phase → Bool) :
    Except HashError (List (List Nat) × List Nat) :=
  match dagLoadGo n cb (List.range n) stream with
  | Except.error e => Except.error e
  | Except.ok rest => Except.ok (List.replicate n [], rest)

/-- Models `get_dag(std::string const & file_path, ...)`: the source is an
unimplemented stub (TODO: implement me) that returns a default-constructed
(null) `shared_ptr`. -/
def get_dag_from_file (_pathBytes : List Nat) (_cb : Nat → Nat → Phase → Bool) :
    Option DagHandle :=
  none

/-- Models `dag_cache.find(epoch)` on the registry (`std::map` keyed by epoch). -/
def regFind (r : List (Nat × DagHandle)) (e : Nat) : Option DagHandle :=
  match r.find? (fun p => p.1 == e) with
  | some p => some p.2
  | none => none

/-- Models `dag_cache.insert(make_pair(epoch, impl))`: `std::map::insert` does
NOT overwrite; it reports whether insertion took place. -/
def regInsert (r : List (Nat × DagHandle)) (e : Nat) (h : DagHandle) :
    List (Nat × DagHandle) × Bool :=
  match r.find? (fun p => p.1 == e) with
  | some _ => (r, false)
  | none => (r ++ [(e, h)], true)

/-- The insertion half of `get_dag(block_number)`: insert the freshly
built handle; if the insert succeeded return it, otherwise return the
established handle found in the map (the fresh one is dropped); if that
find also fails, throw. -/
def getDagFinish (r : List (Nat × DagHandle)) (e : Nat) (fresh : DagHandle) :
    Except HashError (DagHandle × List (Nat × DagHandle)) :=
  let ri := regInsert r e fresh
  if ri.2 then Except.ok (fresh, ri.1)
  else
    match regFind ri.1 e with
    | some h => Except.ok (h, ri.1)
    | none => Except.error HashError.couldNotGetDag

/-- Models `get_dag(block_number)` as a step on the registry state: look up the
epoch under the lock; on a miss run the (long, unlocked) build, then take
the lock again and insert-or-adopt.  A build failure leaves the registry
unchanged. -/
def getDagStep (r : List (Nat × DagHandle)) (e : Nat)
    (build : Unit → Except HashError DagHandle) :
    Except HashError DagHandle × List (Nat × DagHandle) :=
  match regFind r e with
  | some h => (Except.ok h, r)
  | none =>
    match build () with
    | Except.error er => (Except.error er, r)
    | Except.ok fresh =>
      match getDagFinish r e fresh with
      | Except.ok (h, r2) => (Except.ok h, r2)
      | Except.error er => (Except.error er, r)

/-- The second half of the generating constructor of dag impl_t: given the
outcome of the cache build, run `generate` over `get_full_size / 64` items
and assemble the handle; a cache-build failure propagates. -/
def dagHandleGen (h512b : List Nat → List Nat) (block_number : Nat)
    (cb : Nat → Nat → Phase → Bool) :
    Except HashError (List (List Nat)) → Except HashError DagHandle
  | Except.error e => Except.error e
  | Except.ok cdata =>
    match generateE h512b cdata (get_full_size block_number / 64) cb with
    | Except.error e => Except.error e
    | Except.ok ddata =>
      Except.ok ⟨block_number / 30000, get_full_size block_number, cdata, ddata⟩

/-- The build performed by the generating constructor of dag impl_t: the
cache for the block (using `get_seedhash`), then the generated DAG items. -/
def dagHandleBuildE (h256b h512b : List Nat → List Nat) (block_number : Nat)
    (cb : Nat → Nat → Phase → Bool) : Except HashError DagHandle :=
  dagHandleGen h512b block_number cb
    (mkcacheE h512b (get_cache_size block_number / 64)
      (get_seedhash h256b block_number) cb)

/-- A concrete stand-in for the external SHA3-256 primitive, used in the
closed evaluation theorems (the spec places Keccak out of scope). -/
def h256c : List Nat → List Nat :=
  fun bs => (List.range 32).map (fun i => (bs.length * 3 + i) % 256)

/-- A concrete stand-in for the external SHA3-512 primitive, used in the
closed evaluation theorems. -/
def h512c : List Nat → List Nat :=
  fun bs => (List.range 64).map (fun i => (bs.length + 2 * i + 1) % 256)

/-- A concrete lookup function for the closed evaluation theorems. -/
def lookupC : Nat → List Nat := fun x => List.replicate 16 ((x + 7) % U32)

/-- A concrete 8-word header for the closed evaluation theorems. -/
def headerC : List Nat := List.replicate 8 0

/-- A concrete 4-item cache for the phase-B counterexample: item 1 has
first word 2, so `v = 2` and the claim predicts `H512(cache[0] XOR
cache[2])` stored at index 1. -/
def cacheC2 : List (List Nat) :=
  [List.replicate 16 3, 2 :: List.replicate 15 5, List.replicate 16 9,
   List.replicate 16 11]
end egihash

namespace egihash

/-! ## Bridging the trial-division primality test to `Nat.Prime` -/

theorem trialLoop_true_iff (x : Nat) : ∀ fuel i, x < (i + fuel) * (i + fuel) →
    (trialLoop fuel i x = true ↔ ∀ m, i ≤ m → m * m ≤ x → ¬ m ∣ x) := by
  intro fuel
  induction fuel with
  | zero =>
    intro i h
    simp only [trialLoop, true_iff]
    intro m him hmm
    exact absurd (lt_of_le_of_lt hmm (by simpa using h)) (not_lt.mpr (Nat.mul_le_mul him him))
  | succ f ih =>
    intro i h
    by_cases hii : i * i ≤ x
    · by_cases hmod : x % i = 0
      · have hfalse : trialLoop (f + 1) i x = false := by simp [trialLoop, hii, hmod]
        rw [hfalse]
        simp only [Bool.false_eq_true, false_iff, not_forall]
        refine ⟨i, le_rfl, hii, fun hni => hni (Nat.dvd_of_mod_eq_zero hmod)⟩
      · have hstep : trialLoop (f + 1) i x = trialLoop f (i + 1) x := by
          simp [trialLoop, hii, hmod]
        have harith : x < (i + 1 + f) * (i + 1 + f) := by
          have he : i + 1 + f = i + (f + 1) := by omega
          rw [he]; exact h
        rw [hstep, ih (i + 1) harith]
        constructor
        · intro hall m him hmm hdvd
          rcases Nat.eq_or_lt_of_le him with rfl | hlt
          · obtain ⟨c, rfl⟩ := hdvd
            exact hmod (Nat.mul_mod_right i c)
          · exact hall m hlt hmm hdvd
        · intro hall m him hmm hdvd
          exact hall m (Nat.le_of_succ_le him) hmm hdvd
    · have htrue : trialLoop (f + 1) i x = true := by simp [trialLoop, hii]
      rw [htrue]
      simp only [true_iff]
      intro m him hmm
      exact absurd (le_trans (Nat.mul_le_mul him him) hmm) hii


theorem isPrimeCode_true_iff (x : Nat) :
    isPrimeCode x = true ↔ ∀ m, 2 ≤ m → m * m ≤ x → ¬ m ∣ x := by
  have h : x < (2 + x) * (2 + x) := by nlinarith
  exact trialLoop_true_iff x x 2 h

theorem prime_of_isPrimeCode {x : Nat} (h2 : 2 ≤ x) (hc : isPrimeCode x = true) :
    Nat.Prime x := by
  have hns := (isPrimeCode_true_iff x).mp hc
  rw [Nat.prime_def_lt]
  refine ⟨h2, fun m hmx hdvd => ?_⟩
  by_contra hm1
  have hm0 : m ≠ 0 := by
    rintro rfl
    exact absurd (Nat.eq_zero_of_zero_dvd hdvd) (by omega)
  have hm2 : 2 ≤ m := by omega
  by_cases hmm : m * m ≤ x
  · exact hns m hm2 hmm hdvd
  · obtain ⟨k, rfl⟩ := hdvd
    have hk0 : k ≠ 0 := by rintro rfl; omega
    have hk2 : 2 ≤ k := by
      rcases Nat.lt_or_ge k 2 with hk | hk
      · exfalso
        have hk1 : k = 1 := by omega
        subst hk1
        rw [Nat.mul_one] at hmx
        omega
      · exact hk
    have hkm : k ≤ m := by
      by_contra hkm
      push_neg at hkm
      exact hmm (Nat.mul_le_mul_left m (le_of_lt hkm))
    exact hns k hk2 (Nat.mul_le_mul_right k hkm) (Dvd.intro_left m rfl)

theorem isPrimeCode_of_prime {x : Nat} (hp : Nat.Prime x) : isPrimeCode x = true := by
  rw [isPrimeCode_true_iff]
  intro m hm2 hmm hdvd
  rcases (Nat.Prime.eq_one_or_self_of_dvd hp m hdvd) with rfl | rfl
  · omega
  · nlinarith [hp.two_le]

theorem not_prime_of_isPrimeCode_false {x : Nat} (hc : isPrimeCode x = false) :
    ¬ Nat.Prime x := by
  intro hp
  rw [isPrimeCode_of_prime hp] at hc
  cases hc


/-! ## The size-search loop -/

theorem sub64_eq_sub {a b : Nat} (hb : b ≤ a) (ha : a < U64) : sub64 a b = a - b := by
  have hbU : b ≤ U64 := le_trans hb (le_of_lt ha)
  have h1 : a + (U64 - b) = U64 + (a - b) := by omega
  rw [sub64, h1, Nat.add_mod_left]
  exact Nat.mod_eq_of_lt (by omega)

theorem sizeLoopAux (d : Nat) (hd : 0 < d) :
    ∀ fuel m, m ≤ fuel → m % 2 = 1 → 3 ≤ m → d * m < U64 →
    ∃ k, 2 * k ≤ m ∧ sizeLoop d fuel (d * m) = d * (m - 2 * k) ∧
      Nat.Prime (m - 2 * k) ∧ ∀ j, j < k → ¬ Nat.Prime (m - 2 * j) := by
  intro fuel
  induction fuel with
  | zero => intro m hm _ h3 _; omega
  | succ f ih =>
    intro m hm hodd h3 hU
    have hqd : d * m / d = m := Nat.mul_div_cancel_left m hd
    by_cases hp : isPrimeCode m = true
    · refine ⟨0, by omega, ?_, ?_, by omega⟩
      · simp [sizeLoop, hqd, hp]
      · simpa using prime_of_isPrimeCode (by omega) hp
    · have hpf : isPrimeCode m = false := by
        revert hp; cases isPrimeCode m <;> simp
      have hnp : ¬ Nat.Prime m := not_prime_of_isPrimeCode_false hpf
      have h5 : 5 ≤ m := by
        by_contra hlt
        push_neg at hlt
        have h34 : m = 3 ∨ m = 4 := by omega
        rcases h34 with h3' | h4'
        · rw [h3'] at hnp; exact hnp Nat.prime_three
        · rw [h4'] at hodd; exact absurd hodd (by decide)
      have h2dm : 2 * d ≤ d * m :=
        le_trans (by omega : 2 * d ≤ d * 2) (Nat.mul_le_mul_left d (by omega))
      have hsub : sub64 (d * m) (2 * d) = d * (m - 2) := by
        rw [sub64_eq_sub h2dm hU, Nat.mul_sub_left_distrib]
        omega
      have hstep : sizeLoop d (f + 1) (d * m) = sizeLoop d f (d * (m - 2)) := by
        rw [show sizeLoop d (f + 1) (d * m) =
            (if isPrimeCode (d * m / d) then d * m
             else sizeLoop d f (sub64 (d * m) (2 * d))) from rfl,
          hqd, hpf, hsub]
        simp
      have hle : d * (m - 2) ≤ d * m := Nat.mul_le_mul_left d (by omega)
      obtain ⟨k, hk2, hres, hprime, hmax⟩ :=
        ih (m - 2) (by omega) (by omega) (by omega) (lt_of_le_of_lt hle hU)
      refine ⟨k + 1, by omega, ?_, ?_, ?_⟩
      · rw [hstep, hres]
        congr 1
        omega
      · have he : m - 2 * (k + 1) = m - 2 - 2 * k := by omega
        rw [he]; exact hprime
      · intro j hj
        rcases j with _ | j
        · simpa using hnp
        · have he : m - 2 * (j + 1) = m - 2 - 2 * j := by omega
          rw [he]
          exact hmax j (by omega)

theorem sizeLoop_spec (d : Nat) (hd : 0 < d) (fuel x : Nat) (hx : x < U64)
    (hdvd : d ∣ x) (hodd : x / d % 2 = 1) (h3 : 3 ≤ x / d) (hfuel : x / d ≤ fuel) :
    ∃ k, 2 * d * k ≤ x ∧ sizeLoop d fuel x = x - 2 * d * k ∧
      Nat.Prime (sizeLoop d fuel x / d) ∧
      ∀ j, j < k → ¬ Nat.Prime ((x - 2 * d * j) / d) := by
  obtain ⟨m, rfl⟩ := hdvd
  have hqd : d * m / d = m := Nat.mul_div_cancel_left m hd
  rw [hqd] at hodd h3 hfuel
  obtain ⟨k, hk2, hres, hprime, hmax⟩ := sizeLoopAux d hd fuel m hfuel hodd h3 hx
  have hconv : ∀ j, 2 * j ≤ m → d * m - 2 * d * j = d * (m - 2 * j) := by
    intro j _
    rw [Nat.mul_sub_left_distrib]
    ring_nf
  refine ⟨k, ?_, ?_, ?_, ?_⟩
  · calc 2 * d * k = d * (2 * k) := by ring
    _ ≤ d * m := Nat.mul_le_mul_left d hk2
  · rw [hres, hconv k hk2]
  · rw [hres, Nat.mul_div_cancel_left _ hd]
    exact hprime
  · intro j hj
    rw [hconv j (by omega), Nat.mul_div_cancel_left _ hd]
    exact hmax j hj

/-! ## Properties of the initial size values -/

theorem sub_d_form (d s : Nat) (hd : 0 < d) : 2 * d * s - d = d * (2 * s - 1) := by
  rw [Nat.mul_sub_left_distrib]
  have h : d * (2 * s) = 2 * d * s := by ring
  omega

theorem init_props (d t : Nat) (hd : 0 < d) (hdvd : 2 * d ∣ t) (ht : t < U64)
    (hd64 : 2 * d ∣ U64) (h4d : 4 * d ≤ U64) (hbig : t = 0 ∨ 4 * d ≤ t) :
    sub64 t d < U64 ∧ d ∣ sub64 t d ∧ sub64 t d / d % 2 = 1 ∧ 3 ≤ sub64 t d / d := by
  rcases Nat.eq_zero_or_pos t with rfl | htpos
  · obtain ⟨s, hs⟩ := hd64
    have hs2 : 2 ≤ s := by
      rcases Nat.lt_or_ge s 2 with h | h
      · exfalso
        interval_cases s <;> omega
      · exact h
    have hsub : sub64 0 d = U64 - d := by
      rw [sub64, Nat.zero_add]
      exact Nat.mod_eq_of_lt (by omega)
    rw [hsub, hs]
    have hform := sub_d_form d s hd
    have h4d2 : 4 * d ≤ 2 * d * s := by rw [hs] at h4d; exact h4d
    refine ⟨by omega, ⟨2 * s - 1, hform⟩, ?_, ?_⟩
    · rw [hform, Nat.mul_div_cancel_left _ hd]; omega
    · rw [hform, Nat.mul_div_cancel_left _ hd]; omega
  · have h4t : 4 * d ≤ t := by
      rcases hbig with rfl | h
      · omega
      · exact h
    obtain ⟨s, hs⟩ := hdvd
    have hs2 : 2 ≤ s := by
      rcases Nat.lt_or_ge s 2 with h | h
      · exfalso
        interval_cases s <;> omega
      · exact h
    have hsub : sub64 t d = t - d := sub64_eq_sub (by omega) ht
    rw [hsub, hs]
    have hform := sub_d_form d s hd
    have ht2 : 2 * d * s < U64 := by rw [hs] at ht; exact ht
    refine ⟨by omega, ⟨2 * s - 1, hform⟩, ?_, ?_⟩
    · rw [hform, Nat.mul_div_cancel_left _ hd]; omega
    · rw [hform, Nat.mul_div_cancel_left _ hd]; omega

theorem cacheSizeInit_props (b : Nat) :
    cacheSizeInit b < U64 ∧ 64 ∣ cacheSizeInit b ∧
      cacheSizeInit b / 64 % 2 = 1 ∧ 3 ≤ cacheSizeInit b / 64 := by
  have hU : (131072 : Nat) ∣ U64 := by norm_num [U64]
  have hdvd17 : (131072 : Nat) ∣ (16777216 + 131072 * (b / 30000) % U64) % U64 := by
    rw [Nat.dvd_mod_iff hU]
    exact Nat.dvd_add (by norm_num) ((Nat.dvd_mod_iff hU).mpr ⟨b / 30000, rfl⟩)
  have ht : (16777216 + 131072 * (b / 30000) % U64) % U64 < U64 :=
    Nat.mod_lt _ (by norm_num [U64])
  refine init_props 64 _ (by norm_num) (dvd_trans (by norm_num) hdvd17) ht
    (by norm_num [U64]) (by norm_num [U64]) ?_
  rcases Nat.eq_zero_or_pos ((16777216 + 131072 * (b / 30000) % U64) % U64) with h0 | hpos
  · exact Or.inl h0
  · exact Or.inr (le_trans (by norm_num) (Nat.le_of_dvd hpos hdvd17))

theorem fullSizeInit_props (b : Nat) :
    fullSizeInit b < U64 ∧ 128 ∣ fullSizeInit b ∧
      fullSizeInit b / 128 % 2 = 1 ∧ 3 ≤ fullSizeInit b / 128 := by
  have hU : (8388608 : Nat) ∣ U64 := by norm_num [U64]
  have hdvd23 : (8388608 : Nat) ∣ (1073741824 + 8388608 * (b / 30000) % U64) % U64 := by
    rw [Nat.dvd_mod_iff hU]
    exact Nat.dvd_add (by norm_num) ((Nat.dvd_mod_iff hU).mpr ⟨b / 30000, rfl⟩)
  have ht : (1073741824 + 8388608 * (b / 30000) % U64) % U64 < U64 :=
    Nat.mod_lt _ (by norm_num [U64])
  refine init_props 128 _ (by norm_num) (dvd_trans (by norm_num) hdvd23) ht
    (by norm_num [U64]) (by norm_num [U64]) ?_
  rcases Nat.eq_zero_or_pos ((1073741824 + 8388608 * (b / 30000) % U64) % U64) with h0 | hpos
  · exact Or.inl h0
  · exact Or.inr (le_trans (by norm_num) (Nat.le_of_dvd hpos hdvd23))

theorem get_cache_size_spec (b : Nat) :
    ∃ k, 128 * k ≤ cacheSizeInit b ∧
      get_cache_size b = cacheSizeInit b - 128 * k ∧
      Nat.Prime (get_cache_size b / 64) ∧
      ∀ j, j < k → ¬ Nat.Prime ((cacheSizeInit b - 128 * j) / 64) := by
  obtain ⟨hlt, hdvd, hodd, h3⟩ := cacheSizeInit_props b
  obtain ⟨k, hk, hres, hprime, hmax⟩ :=
    sizeLoop_spec 64 (by norm_num) (cacheSizeInit b) (cacheSizeInit b) hlt hdvd hodd h3
      (Nat.div_le_self _ _)
  refine ⟨k, by omega, ?_, hprime, ?_⟩
  · rw [get_cache_size, hres]
  · intro j hj
    have h := hmax j hj
    have he : cacheSizeInit b - 2 * 64 * j = cacheSizeInit b - 128 * j := by omega
    rwa [he] at h

theorem get_full_size_spec (b : Nat) :
    ∃ k, 256 * k ≤ fullSizeInit b ∧
      get_full_size b = fullSizeInit b - 256 * k ∧
      Nat.Prime (get_full_size b / 128) ∧
      ∀ j, j < k → ¬ Nat.Prime ((fullSizeInit b - 256 * j) / 128) := by
  obtain ⟨hlt, hdvd, hodd, h3⟩ := fullSizeInit_props b
  obtain ⟨k, hk, hres, hprime, hmax⟩ :=
    sizeLoop_spec 128 (by norm_num) (fullSizeInit b) (fullSizeInit b) hlt hdvd hodd h3
      (Nat.div_le_self _ _)
  refine ⟨k, by omega, ?_, hprime, ?_⟩
  · rw [get_full_size, hres]
  · intro j hj
    have h := hmax j hj
    have he : fullSizeInit b - 2 * 128 * j = fullSizeInit b - 256 * j := by omega
    rwa [he] at h

theorem get_cache_size_quot_two (b : Nat) : 2 ≤ get_cache_size b / 64 :=
  (get_cache_size_spec b).choose_spec.2.2.1.two_le

theorem get_full_size_dvd128 (b : Nat) : 128 ∣ get_full_size b := by
  obtain ⟨k, hk, hres, _, _⟩ := get_full_size_spec b
  obtain ⟨_, hdvd, _, _⟩ := fullSizeInit_props b
  rw [hres]
  exact Nat.dvd_sub' hdvd ⟨2 * k, by ring⟩

theorem get_full_size_quot64 (b : Nat) :
    get_full_size b / 64 = 2 * (get_full_size b / 128) := by
  obtain ⟨q, hq⟩ := get_full_size_dvd128 b
  omega

theorem get_full_size_quot_two (b : Nat) : 2 ≤ get_full_size b / 64 := by
  rw [get_full_size_quot64 b]
  have := (get_full_size_spec b).choose_spec.2.2.1.two_le
  omega

theorem sizeLoop_stop (d f x : Nat) (h : isPrimeCode (x / d) = true) :
    sizeLoop d (f + 1) x = x := by simp [sizeLoop, h]

theorem sizeLoop_go (d f x : Nat) (h : isPrimeCode (x / d) = false) :
    sizeLoop d (f + 1) x = sizeLoop d f (sub64 x (2 * d)) := by simp [sizeLoop, h]

theorem get_cache_size_zero : get_cache_size 0 = 16776896 := by
  have e0 : cacheSizeInit 0 = 16777152 := by norm_num [cacheSizeInit, sub64, U64]
  have hstop : isPrimeCode (16776896 / 64) = true := by
    have hq : (16776896 : Nat) / 64 = 262139 := by norm_num
    rw [hq]
    exact isPrimeCode_of_prime (by norm_num)
  rw [get_cache_size, e0]
  calc sizeLoop 64 16777152 16777152
      = sizeLoop 64 16777151 (sub64 16777152 128) :=
        sizeLoop_go 64 16777151 16777152 (by decide)
    _ = sizeLoop 64 16777150 (sub64 16777024 128) :=
        sizeLoop_go 64 16777150 16777024 (by decide)
    _ = 16776896 := sizeLoop_stop 64 16777149 16776896 hstop

theorem get_full_size_zero : get_full_size 0 = 1073739904 := by
  have e0 : fullSizeInit 0 = 1073741696 := by norm_num [fullSizeInit, sub64, U64]
  have hstop : isPrimeCode (1073739904 / 128) = true := by
    have hq : (1073739904 : Nat) / 128 = 8388593 := by norm_num
    rw [hq]
    exact isPrimeCode_of_prime (by norm_num)
  rw [get_full_size, e0]
  calc sizeLoop 128 1073741696 1073741696
      = sizeLoop 128 1073741695 (sub64 1073741696 256) :=
        sizeLoop_go 128 1073741695 1073741696 (by decide)
    _ = sizeLoop 128 1073741694 (sub64 1073741440 256) :=
        sizeLoop_go 128 1073741694 1073741440 (by decide)
    _ = sizeLoop 128 1073741693 (sub64 1073741184 256) :=
        sizeLoop_go 128 1073741693 1073741184 (by decide)
    _ = sizeLoop 128 1073741692 (sub64 1073740928 256) :=
        sizeLoop_go 128 1073741692 1073740928 (by decide)
    _ = sizeLoop 128 1073741691 (sub64 1073740672 256) :=
        sizeLoop_go 128 1073741691 1073740672 (by decide)
    _ = sizeLoop 128 1073741690 (sub64 1073740416 256) :=
        sizeLoop_go 128 1073741690 1073740416 (by decide)
    _ = sizeLoop 128 1073741689 (sub64 1073740160 256) :=
        sizeLoop_go 128 1073741689 1073740160 (by decide)
    _ = 1073739904 := sizeLoop_stop 128 1073741688 1073739904 hstop

/-- C5: for every block number, the cache size divided by HASH_BYTES (64) and
the DAG size divided by MIX_BYTES (128) are prime; each size is the largest
value of the form `init - k * 2 * d` (init as computed by the source,
`d = HASH_BYTES` resp. `MIX_BYTES`) whose quotient is prime; and at epoch 0
the cache size is 16776896 bytes and the DAG size is 1073739904 bytes. -/
theorem claimC5 :
    (∀ b, Nat.Prime (get_cache_size b / 64) ∧ Nat.Prime (get_full_size b / 128)) ∧
    (∀ b, ∃ k, 128 * k ≤ cacheSizeInit b ∧
      get_cache_size b = cacheSizeInit b - 128 * k ∧
      ∀ j, j < k → ¬ Nat.Prime ((cacheSizeInit b - 128 * j) / 64)) ∧
    (∀ b, ∃ k, 256 * k ≤ fullSizeInit b ∧
      get_full_size b = fullSizeInit b - 256 * k ∧
      ∀ j, j < k → ¬ Nat.Prime ((fullSizeInit b - 256 * j) / 128)) ∧
    get_cache_size 0 = 16776896 ∧ get_full_size 0 = 1073739904 := by
  refine ⟨fun b => ⟨((get_cache_size_spec b).choose_spec).2.2.1,
      ((get_full_size_spec b).choose_spec).2.2.1⟩,
    fun b => ?_, fun b => ?_, get_cache_size_zero, get_full_size_zero⟩
  · obtain ⟨k, h1, h2, _, h4⟩ := get_cache_size_spec b
    exact ⟨k, h1, h2, h4⟩
  · obtain ⟨k, h1, h2, _, h4⟩ := get_full_size_spec b
    exact ⟨k, h1, h2, h4⟩

/-- C5 witness: the primality facts instantiated at block number 0. -/
theorem claimC5_witness :
    Nat.Prime (get_cache_size 0 / 64) ∧ Nat.Prime (get_full_size 0 / 128) :=
  claimC5.1 0

/-! ## Hashimoto probe bounds -/

theorem accessP_bound (n : Nat) (s mix : List Nat) (i : Nat) (hn : 2 ≤ n) :
    accessP n s mix i + 1 < n := by
  have hpos : 0 < n / 2 := Nat.div_pos hn (by norm_num)
  rw [accessP]
  have hmod : fnv (i % U32 ^^^ s.getD 0 0) (mix.getD (i % 32) 0) % (n / 2) + 1 ≤ n / 2 :=
    Nat.mod_lt _ hpos
  have hmul : n / 2 * 2 ≤ n := Nat.div_mul_le_self n 2
  have h2 : (fnv (i % U32 ^^^ s.getD 0 0) (mix.getD (i % 32) 0) % (n / 2) + 1) * 2 ≤
      n / 2 * 2 := Nat.mul_le_mul_right 2 hmod
  omega

theorem hashimotoLoopGo_indices_lt (n : Nat) (s : List Nat) (lookup : Nat → List Nat)
    (hn : 2 ≤ n) : ∀ L mix idxs, (∀ x ∈ idxs, x < n) →
    ∀ x ∈ (hashimotoLoopGo n s lookup L (mix, idxs)).2, x < n := by
  intro L
  induction L with
  | nil => intro mix idxs h x hx; exact h x hx
  | cons i rest ih =>
    intro mix idxs h x hx
    rw [hashimotoLoopGo] at hx
    refine ih _ _ ?_ x hx
    intro y hy
    rcases List.mem_append.mp hy with hy2 | hy2
    · exact h y hy2
    · have hb := accessP_bound n s mix i hn
      simp only [List.mem_cons, List.mem_singleton, List.not_mem_nil, or_false] at hy2
      rcases hy2 with rfl | rfl
      · omega
      · exact hb

/-- C10: with `n = full_size / HASH_BYTES ≥ 2`, every index `hashimoto`
passes to its lookup function (the probe `p = fnv(i ^ s[0], mix[i % w]) %
(n / 2) * 2` and its successor `p + 1`) is strictly below `n`, so
`hashimoto_full` never indexes the materialized DAG out of bounds. -/
theorem claimC10 (s : List Nat) (lookup : Nat → List Nat) (full_size : Nat)
    (hn : 2 ≤ full_size / 64) :
    ∀ idx ∈ hashimotoIndices (full_size / 64) s lookup, idx < full_size / 64 := by
  intro idx hidx
  exact hashimotoLoopGo_indices_lt (full_size / 64) s lookup hn (List.range 64)
    (s ++ s) [] (by simp) idx hidx

/-- C10 witness: instantiated at `full_size = 256`, an empty seed and a
constant lookup. -/
theorem claimC10_witness :
    2 ≤ 256 / 64 ∧
      ∀ idx ∈ hashimotoIndices (256 / 64) [] (fun _ => []), idx < 256 / 64 :=
  ⟨by norm_num, claimC10 [] (fun _ => []) 256 (by norm_num)⟩

/-! ## Light/full equivalence -/

theorem hashimotoLoopGo_congr (n : Nat) (s : List Nat) (P Q : Nat → List Nat)
    (hn : 2 ≤ n) (hPQ : ∀ i, i < n → P i = Q i) :
    ∀ L mix idxs,
      hashimotoLoopGo n s P L (mix, idxs) = hashimotoLoopGo n s Q L (mix, idxs) := by
  intro L
  induction L with
  | nil => intro mix idxs; rfl
  | cons i rest ih =>
    intro mix idxs
    have hb := accessP_bound n s mix i hn
    simp only [hashimotoLoopGo]
    rw [hPQ _ (by omega), hPQ _ hb]
    exact ih _ _

theorem dagItems_getD (h512b : List Nat → List Nat) (cache : List (List Nat))
    (n i : Nat) (hi : i < n) :
    (dagItems h512b cache n).getD i [] = calc_dataset_item h512b cache i := by
  rw [dagItems, List.getD_eq_getElem?_getD, List.getElem?_map, List.getElem?_range hi]
  rfl

theorem genLoopGo_ok (h512b : List Nat → List Nat) (cache : List (List Nat))
    (n : Nat) (cb : Nat → Nat → Phase → Bool) (hcb : ∀ a b c, cb a b c = true) :
    ∀ L acc, genLoopGo h512b cache n cb L acc =
      Except.ok (acc ++ L.map (calc_dataset_item h512b cache)) := by
  intro L
  induction L with
  | nil => intro acc; simp [genLoopGo]
  | cons i rest ih =>
    intro acc
    simp only [genLoopGo, hcb, Bool.not_true, Bool.and_false, Bool.false_eq_true,
      if_false, List.map_cons]
    rw [ih]
    simp

/-- C3: hashimoto with the light lookup (recomputing every probed item from
the cache) and with the full lookup (reading the DAG materialized from the
same cache) produce identical results whenever `full_size / 64 ≥ 2`; the
generation loop indeed materializes exactly `calc_dataset_item cache i` for
`i < n`; and every `full_size` the sizing function can produce satisfies
the bound, so light and full agree bit-for-bit at every epoch. -/
theorem claimC3 :
    (∀ h256b h512b cache header nonce full_size, 2 ≤ full_size / 64 →
      hashimoto_light h256b h512b full_size cache header nonce =
        hashimoto_full h256b h512b full_size
          (dagItems h512b cache (full_size / 64)) header nonce) ∧
    (∀ h512b cache n cb, (∀ a b c, cb a b c = true) →
      generateE h512b cache n cb = Except.ok (dagItems h512b cache n)) ∧
    (∀ b, 2 ≤ get_full_size b / 64) := by
  refine ⟨?_, ?_, get_full_size_quot_two⟩
  · intro h256b h512b cache header nonce full_size hn
    have hmix : hashimotoMixFinal (full_size / 64) (hashimotoS h512b header nonce)
        (fun x => calc_dataset_item h512b cache x) =
      hashimotoMixFinal (full_size / 64) (hashimotoS h512b header nonce)
        (fun x => (dagItems h512b cache (full_size / 64)).getD x []) := by
      rw [hashimotoMixFinal, hashimotoMixFinal,
        hashimotoLoopGo_congr (full_size / 64) _ _ _ hn
          (fun i hi => (dagItems_getD h512b cache _ i hi).symm)]
    simp only [hashimoto_light, hashimoto_full, hashimoto, hmix]
  · intro h512b cache n cb hcb
    rw [generateE, genLoopGo_ok h512b cache n cb hcb, dagItems]
    simp

/-- C3 witness: light and full agreement instantiated at concrete inputs
with `full_size = 256`. -/
theorem claimC3_witness :
    hashimoto_light h256c h512c 256 cacheC2 headerC 0 =
      hashimoto_full h256c h512c 256 (dagItems h512c cacheC2 (256 / 64)) headerC 0 :=
  claimC3.1 h256c h512c cacheC2 headerC 0 256 (by norm_num)

/-! ## Registry single-flight -/

theorem find?_append_some {p : Nat × DagHandle → Bool} {l1 : List (Nat × DagHandle)}
    (l2 : List (Nat × DagHandle)) {x : Nat × DagHandle} (h : l1.find? p = some x) :
    (l1 ++ l2).find? p = some x := by
  induction l1 with
  | nil => cases h
  | cons a rest ih =>
    rw [List.cons_append, List.find?]
    rw [List.find?] at h
    cases hp : p a
    · rw [hp] at h
      simp only [hp] at h ⊢
      exact ih h
    · rw [hp] at h
      simpa [hp] using h

theorem regFind_some_elim {r : List (Nat × DagHandle)} {e : Nat} {h : DagHandle}
    (hf : regFind r e = some h) :
    ∃ q, r.find? (fun q => q.1 == e) = some q ∧ q.2 = h := by
  rcases hq : r.find? (fun q => q.1 == e) with _ | q
  · exfalso
    simp [regFind, hq] at hf
  · exact ⟨q, hq, by simpa [regFind, hq] using hf⟩

theorem regFind_none_elim {r : List (Nat × DagHandle)} {e : Nat}
    (hf : regFind r e = none) : r.find? (fun q => q.1 == e) = none := by
  rcases hq : r.find? (fun q => q.1 == e) with _ | q
  · exact hq
  · exfalso
    simp [regFind, hq] at hf

theorem getDagStep_hit {r : List (Nat × DagHandle)} {e : Nat} {h : DagHandle}
    (build : Unit → Except HashError DagHandle) (hf : regFind r e = some h) :
    getDagStep r e build = (Except.ok h, r) := by
  rw [getDagStep, hf]

theorem getDagFinish_established {r : List (Nat × DagHandle)} {e : Nat}
    {h : DagHandle} (fresh : DagHandle) (hf : regFind r e = some h) :
    getDagFinish r e fresh = Except.ok (h, r) := by
  obtain ⟨q, hq, _⟩ := regFind_some_elim hf
  have hi : regInsert r e fresh = (r, false) := by rw [regInsert, hq]
  simp [getDagFinish, hi, hf]

theorem regFind_append_of_some {r : List (Nat × DagHandle)} {e2 : Nat}
    {h2 : DagHandle} (l2 : List (Nat × DagHandle)) (hf : regFind r e2 = some h2) :
    regFind (r ++ l2) e2 = some h2 := by
  obtain ⟨q, hq, hq2⟩ := regFind_some_elim hf
  rw [regFind, find?_append_some l2 hq]
  simp [hq2]

theorem getDagStep_preserves {r : List (Nat × DagHandle)} (e : Nat)
    (build : Unit → Except HashError DagHandle) {e2 : Nat} {h2 : DagHandle}
    (hf : regFind r e2 = some h2) :
    regFind (getDagStep r e build).2 e2 = some h2 := by
  rw [getDagStep]
  rcases he : regFind r e with _ | h
  · rcases hb : build () with er | fresh
    · exact hf
    · have hi : regInsert r e fresh = (r ++ [(e, fresh)], true) := by
        rw [regInsert, regFind_none_elim he]
      have hfin : getDagFinish r e fresh = Except.ok (fresh, r ++ [(e, fresh)]) := by
        simp [getDagFinish, hi]
      simp only [hfin]
      exact regFind_append_of_some [(e, fresh)] hf
  · exact hf

theorem getDagStep_nodup {r : List (Nat × DagHandle)} (e : Nat)
    (build : Unit → Except HashError DagHandle)
    (hnd : (r.map Prod.fst).Nodup) :
    (((getDagStep r e build).2).map Prod.fst).Nodup := by
  rw [getDagStep]
  rcases he : regFind r e with _ | h
  · rcases hb : build () with er | fresh
    · exact hnd
    · have hi : regInsert r e fresh = (r ++ [(e, fresh)], true) := by
        rw [regInsert, regFind_none_elim he]
      have hfin : getDagFinish r e fresh = Except.ok (fresh, r ++ [(e, fresh)]) := by
        simp [getDagFinish, hi]
      simp only [hfin, List.map_append]
      rw [List.nodup_append]
      refine ⟨hnd, by simp, ?_⟩
      intro a ha ha2
      simp only [List.map_cons, List.map_nil, List.mem_singleton] at ha2
      subst ha2
      have hnone := List.find?_eq_none.mp (regFind_none_elim he)
      obtain ⟨q, hq, hqe⟩ := List.mem_map.mp ha
      have hcontra := hnone q hq
      rw [hqe] at hcontra
      exact hcontra (by simp)
  · exact hnd

/-- C8: the registry keeps at most one handle per epoch and is
single-flight: a request for an epoch already present returns the
established handle without touching the registry, any request preserves
every established (epoch, handle) binding, the fresh handle of a racing builder
is discarded in favour of the established one, and the epoch keys stay
duplicate-free across requests. -/
theorem claimC8 :
    (∀ r e h build, regFind r e = some h →
      getDagStep r e build = (Except.ok h, r)) ∧
    (∀ r e h fresh, regFind r e = some h →
      getDagFinish r e fresh = Except.ok (h, r)) ∧
    (∀ r e build e2 h2, regFind r e2 = some h2 →
      regFind (getDagStep r e build).2 e2 = some h2) ∧
    (∀ r e build, (r.map Prod.fst).Nodup →
      (((getDagStep r e build).2).map Prod.fst).Nodup) :=
  ⟨fun _ _ _ build hf => getDagStep_hit build hf,
   fun _ _ _ fresh hf => getDagFinish_established fresh hf,
   fun _ e build _ _ hf => getDagStep_preserves e build hf,
   fun _ e build hnd => getDagStep_nodup e build hnd⟩

/-- C8 witness: a registry holding epoch 0 answers a second epoch-0
request with the established handle and stays unchanged, discarding the
fresh handle of the racing builder. -/
theorem claimC8_witness :
    getDagStep [(0, ⟨0, 0, [], []⟩)] 0 (fun _ => Except.ok ⟨0, 1, [], []⟩) =
      (Except.ok ⟨0, 0, [], []⟩, [(0, ⟨0, 0, [], []⟩)]) ∧
    getDagFinish [(0, ⟨0, 0, [], []⟩)] 0 ⟨0, 1, [], []⟩ =
      Except.ok (⟨0, 0, [], []⟩, [(0, ⟨0, 0, [], []⟩)]) :=
  ⟨claimC8.1 [(0, ⟨0, 0, [], []⟩)] 0 ⟨0, 0, [], []⟩ (fun _ => Except.ok ⟨0, 1, [], []⟩) rfl,
   claimC8.2.1 [(0, ⟨0, 0, [], []⟩)] 0 ⟨0, 0, [], []⟩ ⟨0, 1, [], []⟩ rfl⟩

/-! ## Cancellation -/

theorem mkcacheE_cancel (h512b : List Nat → List Nat) (seed : List Nat)
    (cb : Nat → Nat → Phase → Bool) (hcb : ∀ a b c, cb a b c = false)
    (n : Nat) (hn : 2 ≤ n) :
    mkcacheE h512b n seed cb = Except.error HashError.cacheCreationCancelled := by
  obtain ⟨m, rfl⟩ : ∃ m, n = m + 2 := ⟨n - 2, by omega⟩
  have hr : List.range' 1 (m + 2 - 1) = 1 :: List.range' 2 m := rfl
  rw [mkcacheE, hr]
  simp [seedLoopGo, hcb]

theorem generateE_cancel (h512b : List Nat → List Nat) (cache : List (List Nat))
    (cb : Nat → Nat → Phase → Bool) (hcb : ∀ a b c, cb a b c = false)
    (n : Nat) (hn : 1 ≤ n) :
    generateE h512b cache n cb = Except.error HashError.dagCreationCancelled := by
  obtain ⟨m, rfl⟩ : ∃ m, n = m + 1 := ⟨n - 1, by omega⟩
  rw [generateE, List.range_succ_eq_map]
  simp [genLoopGo, hcb]

theorem saveE_cancel (cacheData dagData : List (List Nat))
    (epoch cacheSizeBytes dagSizeBytes : Nat) (cb : Nat → Nat → Phase → Bool)
    (hcb : ∀ a b c, cb a b c = false) (hne : cacheData ≠ []) :
    saveE cacheData dagData epoch cacheSizeBytes dagSizeBytes cb =
      Except.error HashError.dagSaveCancelled := by
  rcases cacheData with _ | ⟨c, rest⟩
  · exact absurd rfl hne
  · simp [saveE, saveLoopGo, hcb]

theorem cacheLoadLoopE_cancel (stream : List Nat) (cb : Nat → Nat → Phase → Bool)
    (hcb : ∀ a b c, cb a b c = false) (n : Nat) (hn : 1 ≤ n) :
    cacheLoadLoopE stream n cb = Except.error HashError.cacheLoadingCancelled := by
  obtain ⟨m, rfl⟩ : ∃ m, n = m + 1 := ⟨n - 1, by omega⟩
  rw [cacheLoadLoopE, List.range_succ_eq_map]
  simp [cacheLoadGo, hcb]

theorem dagLoadLoopE_cancel (stream : List Nat) (cb : Nat → Nat → Phase → Bool)
    (hcb : ∀ a b c, cb a b c = false) (n : Nat) (hn : 1 ≤ n) :
    dagLoadLoopE stream n cb = Except.error HashError.dagLoadingCancelled := by
  obtain ⟨m, rfl⟩ : ∃ m, n = m + 1 := ⟨n - 1, by omega⟩
  rw [dagLoadLoopE, List.range_succ_eq_map]
  simp [dagLoadGo, hcb]

theorem getDagStep_build_error (r : List (Nat × DagHandle)) (e : Nat)
    (er : HashError) (build : Unit → Except HashError DagHandle)
    (hmiss : regFind r e = none) (hb : build () = Except.error er) :
    getDagStep r e build = (Except.error er, r) := by
  rw [getDagStep, hmiss, hb]

theorem dagHandleBuildE_cancel (h256b h512b : List Nat → List Nat) (b : Nat)
    (cb : Nat → Nat → Phase → Bool) (hcb : ∀ x y z, cb x y z = false) :
    dagHandleBuildE h256b h512b b cb =
      Except.error HashError.cacheCreationCancelled := by
  have hc : mkcacheE h512b (get_cache_size b / 64) (get_seedhash h256b b) cb =
      Except.error HashError.cacheCreationCancelled :=
    mkcacheE_cancel h512b (get_seedhash h256b b) cb hcb
      (get_cache_size b / 64) (get_cache_size_quot_two b)
  simp only [dagHandleBuildE]
  rw [hc]
  rfl

theorem getDagStep_build_cancel (h256b h512b : List Nat → List Nat)
    (r : List (Nat × DagHandle)) (b : Nat) (cb : Nat → Nat → Phase → Bool)
    (hcb : ∀ x y z, cb x y z = false) (hmiss : regFind r (b / 30000) = none) :
    getDagStep r (b / 30000) (fun _ => dagHandleBuildE h256b h512b b cb) =
      (Except.error HashError.cacheCreationCancelled, r) :=
  getDagStep_build_error r (b / 30000) HashError.cacheCreationCancelled
    (fun _ => dagHandleBuildE h256b h512b b cb) hmiss
    (dagHandleBuildE_cancel h256b h512b b cb hcb)

/-- C9: an observer that answers stop is honoured by every long-running
loop: cache seeding/strengthening, DAG generation, DAG saving and both
load loops each abort with their cancellation error, and a registry
request whose build is cancelled returns that error and leaves the
registry unchanged, publishing no handle. -/
theorem claimC9 (h256b h512b : List Nat → List Nat)
    (cb : Nat → Nat → Phase → Bool) (hcb : ∀ x y z, cb x y z = false) :
    (∀ n seed, 2 ≤ n →
      mkcacheE h512b n seed cb = Except.error HashError.cacheCreationCancelled) ∧
    (∀ cache n, 1 ≤ n →
      generateE h512b cache n cb = Except.error HashError.dagCreationCancelled) ∧
    (∀ cd dd ep cs ds, cd ≠ [] →
      saveE cd dd ep cs ds cb = Except.error HashError.dagSaveCancelled) ∧
    (∀ stream n, 1 ≤ n →
      cacheLoadLoopE stream n cb = Except.error HashError.cacheLoadingCancelled) ∧
    (∀ stream n, 1 ≤ n →
      dagLoadLoopE stream n cb = Except.error HashError.dagLoadingCancelled) ∧
    (∀ r b, regFind r (b / 30000) = none →
      getDagStep r (b / 30000) (fun _ => dagHandleBuildE h256b h512b b cb) =
        (Except.error HashError.cacheCreationCancelled, r)) :=
  ⟨fun n seed hn => mkcacheE_cancel h512b seed cb hcb n hn,
   fun cache n hn => generateE_cancel h512b cache cb hcb n hn,
   fun cd dd ep cs ds hne => saveE_cancel cd dd ep cs ds cb hcb hne,
   fun stream n hn => cacheLoadLoopE_cancel stream cb hcb n hn,
   fun stream n hn => dagLoadLoopE_cancel stream cb hcb n hn,
   fun r b hmiss => getDagStep_build_cancel h256b h512b r b cb hcb hmiss⟩

/-- C9 witness: the always-stop observer cancels a 2-item cache build and
an epoch-0 registry request on the empty registry, leaving it empty. -/
theorem claimC9_witness :
    mkcacheE h512c 2 [] (fun _ _ _ => false) =
      Except.error HashError.cacheCreationCancelled ∧
    getDagStep [] (0 / 30000)
        (fun _ => dagHandleBuildE h256c h512c 0 (fun _ _ _ => false)) =
      (Except.error HashError.cacheCreationCancelled, []) :=
  ⟨(claimC9 h256c h512c (fun _ _ _ => false) (fun _ _ _ => rfl)).1 2 [] (by norm_num),
   (claimC9 h256c h512c (fun _ _ _ => false) (fun _ _ _ => rfl)).2.2.2.2.2 [] 0 rfl⟩

/-! ## Seed hash, endianness, final digest, phase-B store, load round trip -/

/-- C4: `get_seedhash` constructs `std::string(epoch0_seedhash)`, which
truncates at the first NUL of the all-zero constant: the epoch-0 seed is
the EMPTY string, not the 32-zero-byte constant, and the epoch-1 seed is
derived from hashing the empty string (then passed through the lossy
`serialize`/`deserialize` codec), not from H256 of 32 zero bytes. -/
theorem claimC4 (h256b : List Nat → List Nat) :
    get_seedhash h256b 0 = [] ∧
    get_seedhash h256b 0 ≠ List.replicate 32 0 ∧
    get_seedhash h256b 30000 = serializeHashWords (deserializeBytes (h256b [])) := by
  have h0 : get_seedhash h256b 0 = [] := rfl
  refine ⟨h0, ?_, rfl⟩
  rw [h0]
  decide

/-- C6: the word codec is big-endian, not little-endian: `decode_int`
reads bytes `(1,0,0,0)` as 2^24 instead of 1; the eight nonce bytes are
appended most-significant first rather than least-significant first; and
the hashed seed input is 64 bytes (16 serialized words) rather than the
40 bytes the claim states. -/
theorem claimC6 :
    decode_int [1, 0, 0, 0] = 16777216 ∧
    decode_int [1, 0, 0, 0] ≠ 1 ∧
    (headerSeedWords headerC 1).drop 8 = [0, 0, 0, 0, 0, 0, 0, 1] ∧
    (headerSeedWords headerC 1).drop 8 ≠ [1, 0, 0, 0, 0, 0, 0, 0] ∧
    (serializeHashWords (headerSeedWords headerC 1)).length = 64 := by
  decide

set_option maxRecDepth 100000 in
/-- C2: one strengthening step at round `i = 0`, item `j = 1` on a
concrete 4-item cache: the code leaves `cache[j]` UNCHANGED (the rehashed
image goes to `cache[i]`, the outer round index) and additionally mutates
`cache[(j-1+n) mod n]` in place, while H512 of the u demanded by the claim differs
from the untouched `cache[j]`. -/
theorem claimC2 :
    (mkcacheInnerStep h512c 4 0 1 cacheC2).getD 1 [] = cacheC2.getD 1 [] ∧
    (mkcacheInnerStep h512c 4 0 1 cacheC2).getD 0 [] ≠ cacheC2.getD 0 [] ∧
    hashWords h512c
        (List.zipWith (fun a b => a ^^^ b) (cacheC2.getD 0 []) (cacheC2.getD 2 []))
      ≠ cacheC2.getD 1 [] := by
  decide

set_option maxRecDepth 1000000 in
/-- C1: at a concrete input (and concrete stand-ins for the external hash
primitives), the returned value is NOT H256 of `serialize(s) ||
serialize(cmix)` - the code hashes `serialize(s)` alone and then copies
only `min(32, 8) = 8` bytes - and the returned mix is NOT the 32-byte
serialization of `cmix` (neither the serialize form of the source nor the
little-endian byte form): it holds only 8 bytes of `cmix` plus 24 zeros. -/
theorem claimC1 :
    (hashimoto h256c h512c headerC 0 256 lookupC).value =
      copyMin32 (hashWords h256c (hashimotoS h512c headerC 0)) ∧
    (hashimoto h256c h512c headerC 0 256 lookupC).value ≠
      h256c (serializeHashWords (hashimotoS h512c headerC 0) ++
        serializeHashWords (cmixOf (hashimotoMixFinal 4 (hashimotoS h512c headerC 0) lookupC))) ∧
    (hashimoto h256c h512c headerC 0 256 lookupC).mixhash ≠
      serializeHashWords (cmixOf (hashimotoMixFinal 4 (hashimotoS h512c headerC 0) lookupC)) ∧
    (hashimoto h256c h512c headerC 0 256 lookupC).mixhash ≠
      concatAll ((cmixOf (hashimotoMixFinal 4 (hashimotoS h512c headerC 0) lookupC)).map le4) := by
  refine ⟨rfl, ?_, ?_, ?_⟩ <;> decide

theorem cacheLoadGo_ok (n : Nat) (cb : Nat → Nat → Phase → Bool)
    (hcb : ∀ a b c, cb a b c = true) :
    ∀ L stream, cacheLoadGo n cb L stream = Except.ok (stream.drop (64 * L.length)) := by
  intro L
  induction L with
  | nil => intro stream; simp [cacheLoadGo]
  | cons c rest ih =>
    intro stream
    simp only [cacheLoadGo, hcb, Bool.not_true, Bool.and_false, Bool.false_eq_true,
      if_false, List.length_cons]
    rw [ih, List.drop_drop]
    congr 2
    omega

theorem dagLoadGo_ok (n : Nat) (cb : Nat → Nat → Phase → Bool)
    (hcb : ∀ a b c, cb a b c = true) :
    ∀ L stream, dagLoadGo n cb L stream = Except.ok (stream.drop (64 * L.length)) := by
  intro L
  induction L with
  | nil => intro stream; simp [dagLoadGo]
  | cons c rest ih =>
    intro stream
    simp only [dagLoadGo, hcb, Bool.not_true, Bool.and_false, Bool.false_eq_true,
      if_false, List.length_cons]
    rw [ih, List.drop_drop]
    congr 2
    omega

/-- C7: loading can never return a handle bit-identical to the saved one:
the public file-path `get_dag` overload is an unimplemented stub returning
the null handle, and the internal load loops iterate `for (auto i : data)`
BY VALUE, so every byte read lands in a discarded copy - whatever the
stream contains, the loaded cache and DAG items are all empty, unequal to
any real 16-word item. -/
theorem claimC7 :
    (∀ p cb, get_dag_from_file p cb = none) ∧
    (∀ stream n cb, (∀ a b c, cb a b c = true) →
      cacheLoadLoopE stream n cb =
          Except.ok (List.replicate n [], stream.drop (64 * n)) ∧
        dagLoadLoopE stream n cb =
          Except.ok (List.replicate n [], stream.drop (64 * n))) ∧
    List.replicate 1 ([] : List Nat) ≠ [List.replicate 16 (5 : Nat)] := by
  refine ⟨fun p cb => rfl, fun stream n cb hcb => ⟨?_, ?_⟩, by decide⟩
  · rw [cacheLoadLoopE, cacheLoadGo_ok n cb hcb, List.length_range]
  · rw [dagLoadLoopE, dagLoadGo_ok n cb hcb, List.length_range]

/-- C7 witness: the load loops instantiated on a concrete 64-byte stream
with one item and an always-continue observer. -/
theorem claimC7_witness :
    cacheLoadLoopE (List.replicate 64 7) 1 (fun _ _ _ => true) =
        Except.ok (List.replicate 1 [], (List.replicate 64 7).drop (64 * 1)) ∧
      dagLoadLoopE (List.replicate 64 7) 1 (fun _ _ _ => true) =
        Except.ok (List.replicate 1 [], (List.replicate 64 7).drop (64 * 1)) :=
  claimC7.2.1 (List.replicate 64 7) 1 (fun _ _ _ => true) (fun _ _ _ => rfl)

end egihash
